import Mathlib

/-!
Verification of the IMAP4 command-line parser (imapserver/parse.go).

Go strings are byte sequences; we embed them as List Nat (one Nat per byte).
The parser state mirrors the Go struct: the original line, its ASCII-upper
view, the current byte offset, and the transport connection. Functions that
panic with a syntaxError in Go return res.err here; functions returning a
success boolean return plain pairs. Where Go iterates runes of a string but
compares only against ASCII values and advances by byte index (xstring,
xtakechars), byte-wise iteration yields identical control flow and boundaries,
and identical values for ASCII content; we embed byte-wise. The context stack
and the positional "remaining ..." decoration of error messages (display only)
are elided from syntaxError.errmsg.
-/

namespace Imap

/-- Bytes of an ASCII Lean string literal, used to transcribe the Go string
literals appearing in parse.go. -/
def bs (s : String) : List Nat := s.toList.map Char.toNat

/-- Rendering of a byte list back into a string, used only inside error
messages (Go renders arguments with fmt verbs). -/
def strOfBytes (l : List Nat) : String := String.mk (l.map Char.ofNat)

/-- Go: contains(s string, c rune) bool. -/
def contains (s : List Nat) (c : Nat) : Bool := s.contains c

/-- Go: charRange(first, last rune) string — the bytes first..last. -/
def charRange (first last : Nat) : List Nat := (List.range (last + 1 - first)).map (fun i => first + i)

/-- Go: charRemove(s, remove string) string — keep bytes of s not in remove. -/
def charRemove (s remove : List Nat) : List Nat := s.filter (fun c => !(contains remove c))

def listWildcards : List Nat := bs "%*"
def char : List Nat := charRange 0x01 0x7f
def ctl : List Nat := charRange 0x01 0x19
def quotedSpecials : List Nat := bs "\x22\x5c"
def respSpecials : List Nat := bs "]"
def atomChar : List Nat := charRemove char (bs "()\x7b " ++ ctl ++ listWildcards ++ quotedSpecials ++ respSpecials)
def astringChar : List Nat := atomChar ++ respSpecials

/-- Go: toUpper(s string) string — strictly ASCII upper casing, byte for byte. -/
def toUpper (s : List Nat) : List Nat :=
  s.map (fun c => if 0x61 ≤ c ∧ c ≤ 0x7a then c - 0x20 else c)

/-- Modelled from the spec: the transport collaborator (spec section 6); the
conn type is not part of src/, only its use sites appear in parse.go. A byte
queue stands for the connection; reads take bytes from the front. The
continuation-prompt side effect of a synchronising literal and the
capability/account fields (display and mailbox decoding only) are not needed
by any claim and are not modelled. -/
structure conn where
  pending : List Nat
deriving Repr, DecidableEq

/-- Modelled from the spec: read_literal(size, sync) reads exactly size octets
from the transport (spec section 6). -/
def xreadliteral (c : conn) (size : Int) (_sync : Bool) : List Nat × conn :=
  (c.pending.take size.toNat, ⟨c.pending.drop size.toNat⟩)

/-- Helper for readline: split the queue at the first CRLF, returning the line
content without CRLF and the rest. -/
def takeLine : List Nat → List Nat × List Nat
  | [] => ([], [])
  | 13 :: 10 :: rest => ([], rest)
  | c :: rest =>
    let (l, r) := takeLine rest
    (c :: l, r)

/-- Modelled from the spec: read_line reads the next command-line fragment up
to and including CRLF, returning the content without CRLF (spec section 6). -/
def readline (c : conn) (_dot : Bool) : List Nat × conn :=
  let (l, r) := takeLine c.pending
  (l, ⟨r⟩)

/-- Modelled from the spec: the syntax-error failure raised by the parser
(spec section 7): a pre-formatted untagged line, a response code such as
TOOBIG, and a short message. The Go struct additionally carries a wrapped
error duplicating the message. -/
structure syntaxError where
  line : String
  code : String
  errmsg : String
deriving Repr, DecidableEq

/-- Go: type parser struct — original line, ASCII-upper view, offset, conn.
The contexts field (error-message decoration only) is elided. -/
structure parser where
  orig : List Nat
  upper : List Nat
  o : Nat
  conn : conn
deriving Repr, DecidableEq

/-- Result of a Go parser method that can panic with a syntaxError: either a
value with the mutated parser, or the error with the parser at panic time. -/
inductive res (α : Type) where
  | ok : α → parser → res α
  | err : syntaxError → parser → res α
deriving Repr, DecidableEq

/-- Go: newParser(s string, conn *conn) *parser. -/
def newParser (s : List Nat) (c : conn) : parser := ⟨s, toUpper s, 0, c⟩

/-- Go: (p *parser) xerrorf(format, args...) — panics with a syntaxError whose
line and code are empty. The "remaining/context" suffix is display only and
elided. -/
def xerrorf {α : Type} (p : parser) (msg : String) : res α :=
  .err ⟨"", "", msg⟩ p

/-- Go: (p *parser) empty() bool. -/
def empty (p : parser) : Bool := p.o = p.upper.length

/-- Go: (p *parser) xempty(). -/
def xempty (p : parser) : res Unit :=
  if empty p then .ok () p else xerrorf p "leftover data"

/-- Go: (p *parser) xnonempty(). -/
def xnonempty (p : parser) : res Unit :=
  if empty p then xerrorf p "unexpected end" else .ok () p

/-- Go: (p *parser) hasPrefix(s string) bool — compare against the upper view
at the current offset. -/
def hasPrefix (p : parser) (s : List Nat) : Bool :=
  List.isPrefixOf s (p.upper.drop p.o)

/-- Go: (p *parser) take(s string) bool — advance by len(s) on match. -/
def take (p : parser) (s : List Nat) : Bool × parser :=
  if hasPrefix p s then (true, { p with o := p.o + s.length }) else (false, p)

/-- Go: (p *parser) xtake(s string). -/
def xtake (p : parser) (s : List Nat) : res Unit :=
  let (b, p) := take p s
  if b then .ok () p else xerrorf p ("expected " ++ strOfBytes s)

/-- Go: (p *parser) xtakeall() string — rest of the original view. -/
def xtakeall (p : parser) : List Nat × parser :=
  (p.orig.drop p.o, { p with o := p.orig.length })

/-- Go: (p *parser) xtaken(n int) string — next n bytes of the original view. -/
def xtaken (p : parser) (n : Nat) : res (List Nat) :=
  if p.o + n > p.orig.length then xerrorf p "not enough data"
  else .ok ((p.orig.drop p.o).take n) { p with o := p.o + n }

/-- Go: (p *parser) xtake1n(n int, what string) string. -/
def xtake1n (p : parser) (n : Nat) (what : String) : res (List Nat) :=
  if n = 0 then xerrorf p ("expected chars from " ++ what)
  else xtaken p n

/-- Index of the first byte of l that is not in s (none if all are members);
mirrors the scanning loop of Go xtakechars. -/
def findNonMember (s : List Nat) : List Nat → Option Nat
  | [] => none
  | c :: rest =>
    if contains s c then (findNonMember s rest).map (fun i => i + 1) else some 0

/-- Go: (p *parser) xtakechars(s string, what string) string — greedy run over
the byte set s, read from the original view, at least one byte. -/
def xtakechars (p : parser) (s : List Nat) (what : String) : res (List Nat) :=
  match xnonempty p with
  | .err e p => .err e p
  | .ok _ p =>
    match findNonMember s (p.orig.drop p.o) with
    | some i => xtake1n p i what
    | none =>
      let (r, p) := xtakeall p
      .ok r p

/-- Go: (p *parser) space() bool. -/
def space (p : parser) : Bool × parser := take p (bs " ")

/-- Go: (p *parser) xspace(). -/
def xspace (p : parser) : res Unit :=
  let (b, p) := space p
  if b then .ok () p else xerrorf p "expected space"

/-- Length of the leading digit run of a byte list. -/
def digitsCount : List Nat → Nat
  | [] => 0
  | c :: rest => if 0x30 ≤ c ∧ c ≤ 0x39 then digitsCount rest + 1 else 0

/-- Go: (p *parser) digits() string — greedy digit run over the upper view,
possibly empty. -/
def digits (p : parser) : List Nat × parser :=
  if digitsCount (p.upper.drop p.o) = 0 then ([], p)
  else ((p.upper.drop p.o).take (digitsCount (p.upper.drop p.o)),
        { p with o := p.o + digitsCount (p.upper.drop p.o) })

/-- Numeric value of a digit-byte list (most significant first); mirrors the
value computed by strconv for a string of ASCII digits. -/
def natFromDigits (l : List Nat) : Nat :=
  l.foldl (fun a c => a * 10 + (c - 0x30)) 0

/-- True when every byte of l is an ASCII digit. -/
def allDigits (l : List Nat) : Bool := l.all (fun c => 0x30 ≤ c ∧ c ≤ 0x39)

/-- Go: strconv.ParseUint(s, 10, 32) on the parser's digit runs — fails on an
empty string or a value not fitting 32 bits. -/
def parseUint32 (l : List Nat) : Option Nat :=
  if l = [] ∨ !allDigits l then none
  else if natFromDigits l < 2 ^ 32 then some (natFromDigits l) else none

/-- Go: strconv.ParseInt(s, 10, bitSize) — optional sign, then digits; fails
on an empty run or a value outside the signed bitSize range. -/
def parseIntW (bitSize : Nat) (l : List Nat) : Option Int :=
  match l with
  | [] => none
  | c :: rest =>
    let (neg, ds) :=
      if c = 0x2b then (false, rest)
      else if c = 0x2d then (true, rest)
      else (false, l)
    if ds = [] ∨ !allDigits ds then none
    else
      let v : Int := (natFromDigits ds : Nat)
      let v := if neg then -v else v
      if -(2 ^ (bitSize - 1) : Int) ≤ v ∧ v ≤ (2 ^ (bitSize - 1) : Int) - 1 then some v
      else none

/-- Go: (p *parser) nznumber() (uint32, bool) — digit run parsed as u32,
value at least 1; no advance on failure. -/
def nznumber (p : parser) : (Nat × Bool) × parser :=
  let n := digitsCount (p.upper.drop p.o)
  if n = 0 then ((0, false), p)
  else
    match parseUint32 ((p.upper.drop p.o).take n) with
    | none => ((0, false), p)
    | some v =>
      if v = 0 then ((0, false), p)
      else ((v, true), { p with o := p.o + n })

/-- Go: (p *parser) xnznumber() uint32. -/
def xnznumber (p : parser) : res Nat :=
  let ((n, b), p) := nznumber p
  if b then .ok n p else xerrorf p "expected non-zero number"

/-- Go: (p *parser) number() (uint32, bool) — digit run parsed as u32; no
advance on failure. -/
def number (p : parser) : (Nat × Bool) × parser :=
  let n := digitsCount (p.upper.drop p.o)
  if n = 0 then ((0, false), p)
  else
    match parseUint32 ((p.upper.drop p.o).take n) with
    | none => ((0, false), p)
    | some v => ((v, true), { p with o := p.o + n })

/-- Go: (p *parser) xnumber() uint32. -/
def xnumber (p : parser) : res Nat :=
  let ((n, b), p) := number p
  if b then .ok n p else xerrorf p "expected number"

/-- Go: (p *parser) xnumber64() int64 — digit run parsed as i64. -/
def xnumber64 (p : parser) : res Int :=
  let (s, p) := digits p
  if s = [] then xerrorf p "expected number64"
  else
    match parseIntW 64 s with
    | none => xerrorf p ("parsing number64 " ++ strOfBytes s ++ ": value out of range")
    | some v => .ok v p

/-- Go: (p *parser) takelist(l ...string) (string, bool) — first match in
list order; no advance when none matches. -/
def takelist (p : parser) : List (List Nat) → (List Nat × Bool) × parser
  | [] => (([], false), p)
  | w :: l =>
    let (b, p1) := take p w
    if b then ((w, true), p1) else takelist p l

/-- Go: (p *parser) xtakelist(l ...string) string. -/
def xtakelist (p : parser) (l : List (List Nat)) : res (List Nat) :=
  let ((w, b), p) := takelist p l
  if b then .ok w p
  else xerrorf p ("expected one of " ++ String.intercalate "," (l.map strOfBytes))

/-- Go: (p *parser) digit() (string, bool) — one ASCII digit from the
original view; no advance on failure. -/
def digit (p : parser) : (List Nat × Bool) × parser :=
  if empty p then (([], false), p)
  else if (p.orig.drop p.o).headD 0 < 0x30 ∨ 0x39 < (p.orig.drop p.o).headD 0 then (([], false), p)
  else (([(p.orig.drop p.o).headD 0], true), { p with o := p.o + 1 })

/-- Go: (p *parser) xdigit() string. -/
def xdigit (p : parser) : res (List Nat) :=
  let ((s, b), p) := digit p
  if b then .ok s p else xerrorf p "expected digit"

/-- Go: (p *parser) xliteralSize(maxSize int64, lit8 bool) (int64, bool) —
parses an optional tilde (lit8 only), an open brace, the size, an optional
plus (non-synchronising), the close brace, then requires end of line. When
maxSize > 0 is exceeded the TOOBIG syntax error carries the BYE ALERT line.
No transport interaction happens here. -/
def xliteralSize (p0 : parser) (maxSize : Int) (lit8 : Bool) : res (Int × Bool) :=
  match xtake (if lit8 then (take p0 (bs "~")).2 else p0) (bs "\x7b") with
  | .err e p => .err e p
  | .ok _ p =>
    match xnumber64 p with
    | .err e p => .err e p
    | .ok size p =>
      if maxSize > 0 ∧ size > maxSize then
        .err ⟨"* BYE [ALERT] Max literal size " ++ toString size ++ " is larger than allowed " ++ toString maxSize ++ " in this context",
              "TOOBIG", "literal too big"⟩ p
      else
        let (bplus, p) := take p (bs "+")
        let sync := !bplus
        match xtake p (bs "\x7d") with
        | .err e p => .err e p
        | .ok _ p =>
          match xempty p with
          | .err e p => .err e p
          | .ok _ p => .ok (size, sync) p

/-- Outcome of the quoted-string scanning loop of Go xstring. -/
inductive strScan where
  | done : List Nat → Nat → strScan
  | badByte : strScan
  | badEsc : Nat → strScan
  | noClose : strScan
deriving Repr, DecidableEq

/-- Scanning loop of Go xstring over the bytes after the opening dquote,
with the branch order of the source: a backslash always sets esc first, then
NUL/CR/LF are rejected, then an escaped char is resolved, then an unescaped
dquote ends the token at byte index i. -/
def xstringScan : List Nat → Nat → Bool → List Nat → strScan
  | [], _, _, _ => .noClose
  | c :: rest, i, esc, r =>
    if c = 0x5c then xstringScan rest (i + 1) true r
    else if c = 0x00 ∨ c = 0x0d ∨ c = 0x0a then .badByte
    else if esc then
      if c = 0x5c ∨ c = 0x22 then xstringScan rest (i + 1) false (r ++ [c])
      else .badEsc c
    else if c = 0x22 then .done r (i + 1)
    else xstringScan rest (i + 1) false (r ++ [c])

/-- Go: (p *parser) xstring() string — a quoted string read from the original
view, or a literal: size header, then exactly size octets from the transport,
then the cursor is rebound to the next line at offset 0. -/
def xstring (p : parser) : res (List Nat) :=
  let (b, p) := take p (bs "\x22")
  if b then
    match xstringScan (p.orig.drop p.o) 0 false [] with
    | .done r n => .ok r { p with o := p.o + n }
    | .badByte => xerrorf p "invalid nul, cr or lf in string"
    | .badEsc c => xerrorf p ("invalid escape char " ++ String.singleton (Char.ofNat c))
    | .noClose => xerrorf p "missing closing dquote in string"
  else
    match xliteralSize p (100 * 1024) false with
    | .err e p => .err e p
    | .ok (size, sync) p =>
      let (s, c1) := xreadliteral p.conn size sync
      let (line, c2) := readline c1 false
      .ok s ⟨line, toUpper line, 0, c2⟩

/-- Go: (p *parser) xastring() string. -/
def xastring (p : parser) : res (List Nat) :=
  if hasPrefix p (bs "\x22") ∨ hasPrefix p (bs "\x7b") ∨ hasPrefix p (bs "~\x7b") then xstring p
  else xtakechars p astringChar "astring"

/-- Go: (p *parser) xatom() string. -/
def xatom (p : parser) : res (List Nat) :=
  xtakechars p atomChar "atom"

/-- ASCII lower casing, byte for byte. Go xflag lower-cases with
strings.ToLower (Unicode), but the flag bytes come from atomChar, an
ASCII-only set on which the two agree. -/
def lowerList (l : List Nat) : List Nat :=
  l.map (fun c => if 0x41 ≤ c ∧ c ≤ 0x5a then c + 0x20 else c)

/-- Go: (p *parser) xflag() string — optional backslash or dollar prefix and
an atom; a backslash-prefixed flag must lower-case to one of the five known
system flags. The returned bytes keep the original casing. -/
def xflag (p : parser) : res (List Nat) :=
  let ((w, _), p) := takelist p [bs "\x5c", bs "$"]
  match xatom p with
  | .err e p => .err e p
  | .ok a p =>
    let s := w ++ a
    if s.head? = some 0x5c then
      if lowerList s = bs "\x5canswered" ∨ lowerList s = bs "\x5cflagged" ∨
         lowerList s = bs "\x5cdeleted" ∨ lowerList s = bs "\x5cseen" ∨
         lowerList s = bs "\x5cdraft" then .ok s p
      else xerrorf p ("unknown system flag " ++ strOfBytes s)
    else .ok s p

/-- Go: (p *parser) xstatusAtt() string. -/
def xstatusAtt (p : parser) : res (List Nat) :=
  xtakelist p [bs "MESSAGES", bs "UIDNEXT", bs "UIDVALIDITY", bs "UNSEEN",
               bs "DELETED", bs "SIZE", bs "RECENT", bs "APPENDLIMIT"]

/-- Modelled from the spec: SetNumber of the data model (spec section 3) —
the Go struct setNumber (declared outside src/) with a star marker or a
number; the Go zero value has star=false, number=0. -/
structure setNumber where
  star : Bool
  number : Nat
deriving Repr, DecidableEq

/-- Modelled from the spec: NumRange (spec section 3) — the Go struct
numRange with a first side and an optional last side. -/
structure numRange where
  first : setNumber
  last : Option setNumber
deriving Repr, DecidableEq

/-- Modelled from the spec: NumSet (spec section 3) — the Go struct numSet
with the searchResult marker or a list of ranges. -/
structure numSet where
  searchResult : Bool
  ranges : List numRange
deriving Repr, DecidableEq

/-- Error used when a loop's fuel runs out. Each fueled loop consumes at
least one byte per iteration and starts with more fuel than there are bytes,
so this outcome is unreachable on any run. -/
def outOfFuel : syntaxError := ⟨"", "", "loop fuel exhausted"⟩

/-- One side of Go xnumRange: a star (marker set, number left at the Go zero
value) or an xnznumber; the source performs this step inline for the first
and the last side. -/
def xstarOrNZ (p : parser) : res setNumber :=
  let (b, p) := take p (bs "*")
  if b then .ok { star := true, number := 0 } p
  else
    match xnznumber p with
    | .err e p => .err e p
    | .ok n p => .ok { star := false, number := n } p

/-- Go: (p *parser) xnumRange() numRange — star or nz-number, then an
optional colon and a second star or nz-number. -/
def xnumRange (p : parser) : res numRange :=
  match xstarOrNZ p with
  | .err e p => .err e p
  | .ok first p =>
    let (bc, p) := take p (bs ":")
    if bc then
      match xstarOrNZ p with
      | .err e p => .err e p
      | .ok lastv p => .ok ⟨first, some lastv⟩ p
    else .ok ⟨first, none⟩ p

/-- Comma loop of Go xnumSet: while a comma is taken, append another
numRange. Fuel bounds the iterations; each consumes at least the comma. -/
def xnumSetLoop (fuel : Nat) (acc : List numRange) (p : parser) : res (List numRange) :=
  match fuel with
  | 0 => .err outOfFuel p
  | fuel + 1 =>
    let (b, p) := take p (bs ",")
    if b then
      match xnumRange p with
      | .err e p => .err e p
      | .ok nr p => xnumSetLoop fuel (acc ++ [nr]) p
    else .ok acc p

/-- Go: (p *parser) xnumSet() numSet — a dollar (searchResult) or a non-empty
comma-separated list of numRange. -/
def xnumSet (p : parser) : res numSet :=
  let (b, p) := take p (bs "$")
  if b then .ok { searchResult := true, ranges := [] } p
  else
    match xnumRange p with
    | .err e p => .err e p
    | .ok nr p =>
      match xnumSetLoop (p.orig.length + 1) [nr] p with
      | .err e p => .err e p
      | .ok rs p => .ok { searchResult := false, ranges := rs } p

/-- Modelled from the spec: header names are normalised with canonical MIME
header casing (spec section 4.6); stands for textproto.CanonicalMIMEHeaderKey
of the Go standard library, outside this repository. A letter is upper-cased
at the start and after a hyphen, lower-cased elsewhere. -/
def canonicalMIMEHeaderKey (l : List Nat) : List Nat :=
  (l.foldl
    (fun (st : List Nat × Bool) c =>
      let up := st.2
      let c2 :=
        if up ∧ 0x61 ≤ c ∧ c ≤ 0x7a then c - 0x20
        else if ¬ up ∧ 0x41 ≤ c ∧ c ≤ 0x5a then c + 0x20
        else c
      (st.1 ++ [c2], c = 0x2d))
    ([], true)).1

/-- Modelled from the spec: SectionMsgtext (spec section 3) — the Go struct
sectionMsgtext with the keyword and the optional header-name list. -/
structure sectionMsgtext where
  s : List Nat
  headers : List (List Nat)
deriving Repr, DecidableEq

/-- Modelled from the spec: SectionText (spec section 3) — the Go struct
sectionText: a mime marker or a sectionMsgtext. -/
structure sectionText where
  mime : Bool
  msgtext : Option sectionMsgtext
deriving Repr, DecidableEq

/-- Modelled from the spec: SectionPart (spec section 3) — the Go struct
sectionPart: a MIME part path and an optional sectionText. -/
structure sectionPart where
  part : List Nat
  text : Option sectionText
deriving Repr, DecidableEq

/-- Modelled from the spec: SectionSpec (spec section 3) — the Go struct
sectionSpec with nullable msgtext and part fields. -/
structure sectionSpec where
  msgtext : Option sectionMsgtext
  part : Option sectionPart
deriving Repr, DecidableEq

def msgtextWords : List (List Nat) :=
  [bs "HEADER.FIELDS.NOT", bs "HEADER.FIELDS", bs "HEADER", bs "TEXT"]

/-- Header loop of Go xsectionMsgtext: until a close paren is taken, a space
and another astring. Fuel bounds the iterations; each consumes the space. -/
def xsectionMsgtextLoop (fuel : Nat) (acc : List (List Nat)) (p : parser) : res (List (List Nat)) :=
  match fuel with
  | 0 => .err outOfFuel p
  | fuel + 1 =>
    let (b, p) := take p (bs ")")
    if b then .ok acc p
    else
      match xspace p with
      | .err e p => .err e p
      | .ok _ p =>
        match xastring p with
        | .err e p => .err e p
        | .ok h p => xsectionMsgtextLoop fuel (acc ++ [canonicalMIMEHeaderKey h]) p

/-- Go: (p *parser) xsectionMsgtext() *sectionMsgtext. -/
def xsectionMsgtext (p : parser) : res sectionMsgtext :=
  match xtakelist p msgtextWords with
  | .err e p => .err e p
  | .ok w p =>
    if List.isPrefixOf (bs "HEADER.FIELDS") w then
      match xspace p with
      | .err e p => .err e p
      | .ok _ p =>
        match xtake p (bs "(") with
        | .err e p => .err e p
        | .ok _ p =>
          match xastring p with
          | .err e p => .err e p
          | .ok h p =>
            match xsectionMsgtextLoop (p.orig.length + 1) [canonicalMIMEHeaderKey h] p with
            | .err e p => .err e p
            | .ok hs p => .ok ⟨w, hs⟩ p
    else .ok ⟨w, []⟩ p

/-- Dot loop of Go xsectionSpec: while a dot is taken, another part number,
or MIME, or a msgtext ends the path. Fuel bounds the iterations. -/
def xsectionSpecLoop (fuel : Nat) (acc : List Nat) (p : parser) : res (List Nat × Option sectionText) :=
  match fuel with
  | 0 => .err outOfFuel p
  | fuel + 1 =>
    let (b, p) := take p (bs ".")
    if b then
      match nznumber p with
      | ((n, true), p) => xsectionSpecLoop fuel (acc ++ [n]) p
      | ((_, false), p) =>
        let (bm, p) := take p (bs "MIME")
        if bm then .ok (acc, some ⟨true, none⟩) p
        else
          match xsectionMsgtext p with
          | .err e p => .err e p
          | .ok mt p => .ok (acc, some ⟨false, some mt⟩) p
    else .ok (acc, none) p

/-- Go: (p *parser) xsectionSpec() *sectionSpec. -/
def xsectionSpec (p : parser) : res sectionSpec :=
  match nznumber p with
  | ((_, false), p) =>
    match xsectionMsgtext p with
    | .err e p => .err e p
    | .ok mt p => .ok ⟨some mt, none⟩ p
  | ((n, true), p) =>
    match xsectionSpecLoop (p.orig.length + 1) [n] p with
    | .err e p => .err e p
    | .ok (pt, txt) p => .ok ⟨none, some ⟨pt, txt⟩⟩ p

/-- Go: (p *parser) xsection() *sectionSpec. -/
def xsection (p : parser) : res sectionSpec :=
  match xtake p (bs "[") with
  | .err e p => .err e p
  | .ok _ p =>
    let (b, p) := take p (bs "]")
    if b then .ok ⟨none, none⟩ p
    else
      match xsectionSpec p with
      | .err e p => .err e p
      | .ok r p =>
        match xtake p (bs "]") with
        | .err e p => .err e p
        | .ok _ p => .ok r p

/-- Modelled from the spec: Partial (spec section 3) — the Go struct named
partial (declared outside src/), an octet offset and count. The Lean name
differs because the Go name is unavailable here. -/
structure subrange where
  offset : Nat
  count : Nat
deriving Repr, DecidableEq

/-- Go: (p *parser) xpartial() — angle brackets around number dot nz-number.
The Lean name differs because the Go name is unavailable here. -/
def xsubrange (p : parser) : res subrange :=
  match xtake p (bs "<") with
  | .err e p => .err e p
  | .ok _ p =>
    match xnumber p with
    | .err e p => .err e p
    | .ok offset p =>
      match xtake p (bs ".") with
      | .err e p => .err e p
      | .ok _ p =>
        match xnznumber p with
        | .err e p => .err e p
        | .ok count p =>
          match xtake p (bs ">") with
          | .err e p => .err e p
          | .ok _ p => .ok ⟨offset, count⟩ p

/-- Dot loop of Go xsectionBinary. Fuel bounds the iterations. -/
def xsectionBinaryLoop (fuel : Nat) (acc : List Nat) (p : parser) : res (List Nat) :=
  match fuel with
  | 0 => .err outOfFuel p
  | fuel + 1 =>
    let (b, p) := take p (bs ".")
    if b then
      match xnznumber p with
      | .err e p => .err e p
      | .ok n p => xsectionBinaryLoop fuel (acc ++ [n]) p
    else .ok acc p

/-- Go: (p *parser) xsectionBinary() []uint32. -/
def xsectionBinary (p : parser) : res (List Nat) :=
  match xtake p (bs "[") with
  | .err e p => .err e p
  | .ok _ p =>
    let (b, p) := take p (bs "]")
    if b then .ok [] p
    else
      match xnznumber p with
      | .err e p => .err e p
      | .ok n p =>
        match xsectionBinaryLoop (p.orig.length + 1) [n] p with
        | .err e p => .err e p
        | .ok r p =>
          match xtake p (bs "]") with
          | .err e p => .err e p
          | .ok _ p => .ok r p

/-- Modelled from the spec: FetchAtt (spec section 3) — the Go struct
fetchAtt (declared outside src/): normalised field name, peek, optional
section, binary-section path, optional partial. The Go fields named section
and partial are sect and subrange here. -/
structure fetchAtt where
  field : List Nat
  peek : Bool
  sect : Option sectionSpec
  sectionBinary : List Nat
  subrange : Option subrange
deriving Repr, DecidableEq

/-- Go: strings.TrimSuffix(s, suffix). -/
def trimSuffix (l suffix : List Nat) : List Nat :=
  if List.isSuffixOf suffix l then l.take (l.length - suffix.length) else l

def fetchAttWords : List (List Nat) :=
  [bs "ENVELOPE", bs "FLAGS", bs "INTERNALDATE", bs "RFC822.SIZE",
   bs "BODYSTRUCTURE", bs "UID", bs "BODY.PEEK", bs "BODY", bs "BINARY.PEEK",
   bs "BINARY.SIZE", bs "BINARY", bs "RFC822.HEADER", bs "RFC822.TEXT", bs "RFC822"]

/-- Go: (p *parser) xfetchAtt() fetchAtt — first keyword match in list
order, peek iff the .PEEK suffix was present, field with the suffix trimmed,
then the section and partial forms of the BODY, BINARY and BINARY.SIZE
branches of the switch. -/
def xfetchAtt (p : parser) : res fetchAtt :=
  match xtakelist p fetchAttWords with
  | .err e p => .err e p
  | .ok f p =>
    let peek := List.isSuffixOf (bs ".PEEK") f
    let field := trimSuffix f (bs ".PEEK")
    let r0 : fetchAtt := ⟨field, peek, none, [], none⟩
    if field = bs "BODY" then
      if hasPrefix p (bs "[") then
        match xsection p with
        | .err e p => .err e p
        | .ok sec p =>
          if hasPrefix p (bs "<") then
            match xsubrange p with
            | .err e p => .err e p
            | .ok pr p => .ok { r0 with sect := some sec, subrange := some pr } p
          else .ok { r0 with sect := some sec } p
      else .ok r0 p
    else if field = bs "BINARY" then
      match xsectionBinary p with
      | .err e p => .err e p
      | .ok sb p =>
        if hasPrefix p (bs "<") then
          match xsubrange p with
          | .err e p => .err e p
          | .ok pr p => .ok { r0 with sectionBinary := sb, subrange := some pr } p
        else .ok { r0 with sectionBinary := sb } p
    else if field = bs "BINARY.SIZE" then
      match xsectionBinary p with
      | .err e p => .err e p
      | .ok sb p => .ok { r0 with sectionBinary := sb } p
    else .ok r0 p

/-- Go: xint(p *parser, s string) int — strconv.ParseInt(s, 10, 32). -/
def xint (p : parser) (s : List Nat) : res Int :=
  match parseIntW 32 s with
  | none => xerrorf p ("bad int " ++ strOfBytes s)
  | some v => .ok v p

/-- Record of the arguments of a Go time.Date constructor call. UTC is the
zone named UTC at offset 0. -/
structure goTime where
  year : Int
  month : Nat
  day : Int
  hour : Int
  minute : Int
  sec : Int
  nsec : Int
  zoneName : String
  zoneOffset : Int
deriving Repr, DecidableEq

def months : List (List Nat) :=
  [bs "jan", bs "feb", bs "mar", bs "apr", bs "may", bs "jun",
   bs "jul", bs "aug", bs "sep", bs "oct", bs "nov", bs "dec"]

/-- Go: (p *parser) xdateMonth() time.Month — three bytes of the original
view, lower-cased and matched against the month names. -/
def xdateMonth (p : parser) : res Nat :=
  match xtaken p 3 with
  | .err e p => .err e p
  | .ok s3 p =>
    let s := lowerList s3
    match months.findIdx? (fun m => m == s) with
    | some i => .ok (1 + i) p
    | none => xerrorf p ("unknown month " ++ strOfBytes s)

/-- Go: (p *parser) xdateDay() int — one digit and an optional second. -/
def xdateDay (p : parser) : res Int :=
  match xdigit p with
  | .err e p => .err e p
  | .ok d p =>
    let ((s, b), p) := digit p
    let d := if b then d ++ s else d
    xint p d

/-- Go: (p *parser) xdate() time.Time — an optional opening dquote,
day-month-year with a 4-digit year, a silently consumed closing dquote when
the opening one was present, and midnight UTC of the parsed values. -/
def xdate (p : parser) : res goTime :=
  let (dquote, p) := take p (bs "\x22")
  match xdateDay p with
  | .err e p => .err e p
  | .ok day p =>
    match xtake p (bs "-") with
    | .err e p => .err e p
    | .ok _ p =>
      match xdateMonth p with
      | .err e p => .err e p
      | .ok mon p =>
        match xtake p (bs "-") with
        | .err e p => .err e p
        | .ok _ p =>
          match xtaken p 4 with
          | .err e p => .err e p
          | .ok ys p =>
            match xint p ys with
            | .err e p => .err e p
            | .ok year p =>
              let p := if dquote then (take p (bs "\x22")).2 else p
              .ok ⟨year, mon, day, 0, 0, 0, 0, "UTC", 0⟩ p

/-- Comma loop of Go xtaggedExtSimple: while a comma is taken, another
numRange. Fuel bounds the iterations. -/
def xtaggedExtSimpleLoop (fuel : Nat) (p : parser) : res Unit :=
  match fuel with
  | 0 => .err outOfFuel p
  | fuel + 1 =>
    let (b, p) := take p (bs ",")
    if b then
      match xnumRange p with
      | .err e p => .err e p
      | .ok _ p => xtaggedExtSimpleLoop fuel p
    else .ok () p

/-- Go: (p *parser) xtaggedExtSimple() — a digit run; when it is empty, a
numSet is parsed, but the digit run (still empty) is then handed to
strconv.ParseInt regardless, as in the source; then an optional colon with
star or nz-number and a comma loop of numRange. -/
def xtaggedExtSimple (p : parser) : res Unit :=
  let (s, p) := digits p
  match ((if s = [] then
            match xnumSet p with
            | .err e p => .err e p
            | .ok _ p => .ok () p
          else .ok () p) : res Unit) with
  | .err e p => .err e p
  | .ok _ p =>
    match parseIntW 64 s with
    | none => xerrorf p "parsing int: invalid syntax"
    | some _ =>
      let (b, p) := take p (bs ":")
      match ((if b then
                let (b2, p) := take p (bs "*")
                if b2 then .ok () p
                else
                  match xnznumber p with
                  | .err e p => .err e p
                  | .ok _ p => .ok () p
              else .ok () p) : res Unit) with
      | .err e p => .err e p
      | .ok _ p => xtaggedExtSimpleLoop (p.orig.length + 1) p

/-- Go: (p *parser) remainder() string. -/
def remainder (p : parser) : List Nat := p.orig.drop p.o

/-- Empty transport used by concrete evaluations. -/
def conn0 : conn := ⟨[]⟩

/-- Invariant of one side of a numRange: the star marker with the zero value,
or no marker and a value of at least 1, never both. -/
@[reducible] def setNumberInv (sn : setNumber) : Prop :=
  (sn.star = true ∧ sn.number = 0) ∨ (sn.star = false ∧ 1 ≤ sn.number)

/-- Invariant of a numRange: both sides satisfy setNumberInv. -/
@[reducible] def numRangeInv (nr : numRange) : Prop :=
  setNumberInv nr.first ∧ ∀ l, nr.last = some l → setNumberInv l

/-- Well-formedness relating the two views of a parser state: the upper view
is the ASCII-upper image of the original and the offset is in bounds. -/
def wfp (p : parser) : Prop :=
  p.upper = toUpper p.orig ∧ p.o ≤ p.orig.length

/-- States q and p agree except that the remaining input of q carries the
extra suffix e; used to compare runs of xdate on related inputs. -/
def extRel (e : List Nat) (p q : parser) : Prop :=
  wfp p ∧ wfp q ∧ q.orig.drop q.o = p.orig.drop p.o ++ e

/-- Suffixes whose first byte is not an ASCII digit; appending such a suffix
cannot turn a failed digit read into a successful one. -/
def eNoDigit (e : List Nat) : Prop :=
  ∀ c, e.head? = some c → ¬(0x30 ≤ c ∧ c ≤ 0x39)

lemma take_false_eq (p : parser) (s : List Nat) (h : (take p s).1 = false) :
    take p s = (false, p) := by
  by_cases hc : hasPrefix p s
  · simp [take, hc] at h
  · simp [take, hc]

lemma parseUint32_some (l : List Nat) (v : Nat) (h : parseUint32 l = some v) :
    v = natFromDigits l := by
  unfold parseUint32 at h
  split at h
  · simp at h
  · split at h
    · simp_all
    · simp at h

lemma nznumber_false_eq (p : parser) (h : (nznumber p).1.2 = false) :
    nznumber p = ((0, false), p) := by
  by_cases h0 : digitsCount (p.upper.drop p.o) = 0
  · simp [nznumber, h0]
  · rcases hp : parseUint32 ((p.upper.drop p.o).take (digitsCount (p.upper.drop p.o))) with _ | v
    · simp [nznumber, h0, hp]
    · by_cases hv : v = 0
      · simp [nznumber, h0, hp, hv]
      · exfalso
        simp [nznumber, h0, hp, hv] at h

lemma number_false_eq (p : parser) (h : (number p).1.2 = false) :
    number p = ((0, false), p) := by
  by_cases h0 : digitsCount (p.upper.drop p.o) = 0
  · simp [number, h0]
  · rcases hp : parseUint32 ((p.upper.drop p.o).take (digitsCount (p.upper.drop p.o))) with _ | v
    · simp [number, h0, hp]
    · exfalso
      simp [number, h0, hp] at h

lemma digit_false_eq (p : parser) (h : (digit p).1.2 = false) :
    digit p = (([], false), p) := by
  unfold digit at h ⊢
  split at h
  · simp_all
  · split at h
    · simp_all
    · simp_all

/-- C3: toUpper preserves byte length; at every position holding a byte in
0x61..0x7a the result is that byte minus 0x20, and at every other position
the result byte is unchanged — for arbitrary byte strings, including
non-UTF-8 ones. -/
theorem C3_toUpper_ascii (s : List Nat) :
    (toUpper s).length = s.length ∧
    ∀ (i : Nat) (b : Nat), s[i]? = some b →
      ((0x61 ≤ b ∧ b ≤ 0x7a) → (toUpper s)[i]? = some (b - 0x20)) ∧
      (¬(0x61 ≤ b ∧ b ≤ 0x7a) → (toUpper s)[i]? = some b) := by
  refine ⟨by simp [toUpper], ?_⟩
  intro i b hb
  constructor <;> intro h <;> simp [toUpper, List.getElem?_map, hb, h]

theorem C3_toUpper_ascii_witness :
    (toUpper (bs "aZ!"))[0]? = some 0x41 :=
  ((C3_toUpper_ascii (bs "aZ!")).2 0 0x61 (by decide)).1 (by decide)

/-- C4: the unprefixed predicates take, nznumber, number and digit do not
move the cursor (and return the Go zero results) when they fail; in
particular nznumber and number fail without advancing on an empty digit run,
on a u32 overflow of the digit run, and (nznumber) on the value 0. -/
theorem C4_no_progress (p : parser) (s : List Nat) :
    ((take p s).1 = false → take p s = (false, p)) ∧
    ((nznumber p).1.2 = false → nznumber p = ((0, false), p)) ∧
    ((number p).1.2 = false → number p = ((0, false), p)) ∧
    ((digit p).1.2 = false → digit p = (([], false), p)) ∧
    (digitsCount (p.upper.drop p.o) = 0 →
      number p = ((0, false), p) ∧ nznumber p = ((0, false), p)) ∧
    (2 ^ 32 ≤ natFromDigits ((p.upper.drop p.o).take (digitsCount (p.upper.drop p.o))) →
      number p = ((0, false), p) ∧ nznumber p = ((0, false), p)) ∧
    (natFromDigits ((p.upper.drop p.o).take (digitsCount (p.upper.drop p.o))) = 0 →
      nznumber p = ((0, false), p)) := by
  refine ⟨take_false_eq p s, nznumber_false_eq p, number_false_eq p, digit_false_eq p, ?_, ?_, ?_⟩
  · intro h0
    exact ⟨by simp [number, h0], by simp [nznumber, h0]⟩
  · intro hov
    have hpn : parseUint32 ((p.upper.drop p.o).take (digitsCount (p.upper.drop p.o))) = none := by
      unfold parseUint32
      split
      · rfl
      · rw [if_neg]
        omega
    by_cases h0 : digitsCount (p.upper.drop p.o) = 0
    · exact ⟨by simp [number, h0], by simp [nznumber, h0]⟩
    · exact ⟨by simp [number, h0, hpn], by simp [nznumber, h0, hpn]⟩
  · intro hz
    by_cases h0 : digitsCount (p.upper.drop p.o) = 0
    · simp [nznumber, h0]
    · rcases hp : parseUint32 ((p.upper.drop p.o).take (digitsCount (p.upper.drop p.o))) with _ | v
      · simp [nznumber, h0, hp]
      · have hv : v = 0 := by rw [parseUint32_some _ _ hp, hz]
        simp [nznumber, h0, hp, hv]

theorem C4_no_progress_witness :
    nznumber (newParser (bs "0") conn0) = ((0, false), newParser (bs "0") conn0) :=
  (C4_no_progress (newParser (bs "0") conn0) []).2.2.2.2.2.2 (by decide)

/-- C1: behaviour of the quoted-string form of xstring at concrete inputs.
The escape backslash-dquote yields a literal dquote, NUL/CR/LF bytes are
rejected, and the token ends at the first unescaped closing dquote; but the
escape backslash-backslash is broken: on the four bytes dquote backslash
backslash dquote the scanner re-enters escape mode at the second backslash
(the branch testing for a backslash runs before the escape branch), consumes
the final dquote as an escaped quote, and fails with a missing-closing-dquote
syntax error instead of returning a single backslash. -/
theorem C1_xstring_quoted :
    xstring (newParser (bs "\x22\x5c\x5c\x22") conn0) =
      res.err ⟨"", "", "missing closing dquote in string"⟩
        { newParser (bs "\x22\x5c\x5c\x22") conn0 with o := 1 } ∧
    xstring (newParser (bs "\x22a\x5c\x22b\x22") conn0) =
      res.ok (bs "a\x22b") { newParser (bs "\x22a\x5c\x22b\x22") conn0 with o := 6 } ∧
    xstring (newParser (bs "\x22a\x0db\x22") conn0) =
      res.err ⟨"", "", "invalid nul, cr or lf in string"⟩
        { newParser (bs "\x22a\x0db\x22") conn0 with o := 1 } ∧
    xstring (newParser (bs "\x22ab\x22cd") conn0) =
      res.ok (bs "ab") { newParser (bs "\x22ab\x22cd") conn0 with o := 4 } := by
  refine ⟨?_, ?_, ?_, ?_⟩ <;> decide

/-- C7: the empty-digit-run branch of xtaggedExtSimple. The numSet parse of
the inputs star and dollar succeeds (witnessed by xnumSet directly), but
xtaggedExtSimple then always hands the still-empty digit run to the integer
parser, which fails, so both inputs end in a syntax error instead of
succeeding. -/
theorem C7_taggedExtSimple_numSet_branch :
    xnumSet (newParser (bs "*") conn0) =
      res.ok ⟨false, [⟨⟨true, 0⟩, none⟩]⟩ { newParser (bs "*") conn0 with o := 1 } ∧
    xtaggedExtSimple (newParser (bs "*") conn0) =
      res.err ⟨"", "", "parsing int: invalid syntax"⟩ { newParser (bs "*") conn0 with o := 1 } ∧
    xnumSet (newParser (bs "$") conn0) =
      res.ok ⟨true, []⟩ { newParser (bs "$") conn0 with o := 1 } ∧
    xtaggedExtSimple (newParser (bs "$") conn0) =
      res.err ⟨"", "", "parsing int: invalid syntax"⟩ { newParser (bs "$") conn0 with o := 1 } := by
  refine ⟨?_, ?_, ?_, ?_⟩ <;> decide

lemma take_conn (p : parser) (s : List Nat) : ((take p s).2).conn = p.conn := by
  by_cases hc : hasPrefix p s
  · simp [take, hc]
  · simp [take, hc]

lemma xtake_ok_conn (p : parser) (s : List Nat) (p1 : parser)
    (h : xtake p s = res.ok () p1) : p1.conn = p.conn := by
  unfold xtake at h
  by_cases hc : hasPrefix p s
  · simp [take, hc] at h
    rw [← h]
  · simp [take, hc, xerrorf] at h

lemma digits_conn (p : parser) : ((digits p).2).conn = p.conn := by
  unfold digits
  split <;> rfl

lemma xnumber64_ok_conn (p : parser) (v : Int) (p1 : parser)
    (h : xnumber64 p = res.ok v p1) : p1.conn = p.conn := by
  unfold xnumber64 at h
  rcases hd : digits p with ⟨s, pd⟩
  rw [hd] at h
  have hc : pd.conn = p.conn := by
    have := digits_conn p
    rw [hd] at this
    exact this
  dsimp only at h
  split at h
  · simp [xerrorf] at h
  · split at h
    · simp [xerrorf] at h
    · cases h
      exact hc

/-- C2: whenever xliteralSize is called with a positive maxSize and the
parsed literal size N exceeds it, the parse fails with response code TOOBIG
and the continuation payload line announcing N and the allowed maximum, and
the connection (the transport byte queue) at the failure state is exactly the
one the call started from: no transport read of the literal octets happens
before the failure. -/
theorem C2_literal_toobig (maxSize : Int) (lit8 : Bool) (p p1 p2 : parser) (N : Int)
    (hpos : maxSize > 0)
    (hbrace : xtake (if lit8 then (take p (bs "~")).2 else p) (bs "\x7b") = res.ok () p1)
    (hnum : xnumber64 p1 = res.ok N p2)
    (hbig : N > maxSize) :
    xliteralSize p maxSize lit8 =
      res.err ⟨"* BYE [ALERT] Max literal size " ++ toString N ++
               " is larger than allowed " ++ toString maxSize ++ " in this context",
               "TOOBIG", "literal too big"⟩ p2 ∧
    p2.conn = p.conn := by
  constructor
  · unfold xliteralSize
    rw [hbrace]
    dsimp only
    rw [hnum]
    dsimp only
    rw [if_pos ⟨hpos, hbig⟩]
  · have h1 : p1.conn = (if lit8 then (take p (bs "~")).2 else p).conn := xtake_ok_conn _ _ _ hbrace
    have h2 : (if lit8 then (take p (bs "~")).2 else p).conn = p.conn := by
      by_cases hl : lit8
      · simp [hl, take_conn]
      · simp [hl]
    rw [xnumber64_ok_conn p1 N p2 hnum, h1, h2]

theorem C2_literal_toobig_witness :
    xliteralSize (newParser (bs "\x7b5\x7d") conn0) 3 false =
      res.err ⟨"* BYE [ALERT] Max literal size " ++ toString (5 : Int) ++
               " is larger than allowed " ++ toString (3 : Int) ++ " in this context",
               "TOOBIG", "literal too big"⟩
        { newParser (bs "\x7b5\x7d") conn0 with o := 2 } ∧
    ({ newParser (bs "\x7b5\x7d") conn0 with o := 2 } : parser).conn =
      (newParser (bs "\x7b5\x7d") conn0).conn :=
  C2_literal_toobig 3 false (newParser (bs "\x7b5\x7d") conn0)
    { newParser (bs "\x7b5\x7d") conn0 with o := 1 }
    { newParser (bs "\x7b5\x7d") conn0 with o := 2 } 5
    (by decide) (by decide) (by decide) (by decide)

/-- C6 counterexample: backslash-Seen and backslash-seen both parse, but
xflag returns the input bytes in their original casing, so the two runs do
not produce an identical normalised flag value as the claim states. -/
theorem C6_flag_counterexample :
    xflag (newParser (bs "\x5cSeen") conn0) =
      res.ok (bs "\x5cSeen") { newParser (bs "\x5cSeen") conn0 with o := 5 } ∧
    xflag (newParser (bs "\x5cseen") conn0) =
      res.ok (bs "\x5cseen") { newParser (bs "\x5cseen") conn0 with o := 5 } ∧
    bs "\x5cSeen" ≠ bs "\x5cseen" := by
  refine ⟨?_, ?_, ?_⟩ <;> decide

/-- C6 amended: xflag fails with a syntax error on any backslash-prefixed
flag whose lower-cased name is not one of the five system flags (so parsing
backslash-Foo fails), while backslash-Seen, -seen and -SEEN all succeed and
their lower-casings agree; the returned flag value preserves the original
input casing rather than being normalised. -/
theorem C6_flag_whitelist :
    (∀ (p : parser) (r : List Nat) (p1 : parser), xflag p = res.ok r p1 →
        r.head? = some 0x5c →
        lowerList r = bs "\x5canswered" ∨ lowerList r = bs "\x5cflagged" ∨
        lowerList r = bs "\x5cdeleted" ∨ lowerList r = bs "\x5cseen" ∨
        lowerList r = bs "\x5cdraft") ∧
    xflag (newParser (bs "\x5cFoo") conn0) =
      res.err ⟨"", "", "unknown system flag \x5cFoo"⟩
        { newParser (bs "\x5cFoo") conn0 with o := 4 } ∧
    xflag (newParser (bs "\x5cSeen") conn0) =
      res.ok (bs "\x5cSeen") { newParser (bs "\x5cSeen") conn0 with o := 5 } ∧
    xflag (newParser (bs "\x5cseen") conn0) =
      res.ok (bs "\x5cseen") { newParser (bs "\x5cseen") conn0 with o := 5 } ∧
    xflag (newParser (bs "\x5cSEEN") conn0) =
      res.ok (bs "\x5cSEEN") { newParser (bs "\x5cSEEN") conn0 with o := 5 } ∧
    lowerList (bs "\x5cSeen") = lowerList (bs "\x5cseen") ∧
    lowerList (bs "\x5cSEEN") = lowerList (bs "\x5cseen") := by
  refine ⟨?_, by decide, by decide, by decide, by decide, by decide, by decide⟩
  intro p r p1 hok hhead
  unfold xflag at hok
  rcases htl : takelist p [bs "\x5c", bs "$"] with ⟨⟨w, b⟩, pt⟩
  rw [htl] at hok
  dsimp only at hok
  cases hat : xatom pt with
  | err e pe =>
    rw [hat] at hok
    exact res.noConfusion hok
  | ok a pa =>
    rw [hat] at hok
    dsimp only at hok
    split at hok
    · split at hok
      · cases hok
        assumption
      · simp [xerrorf] at hok
    · cases hok
      simp_all

theorem C6_flag_whitelist_witness :
    lowerList (bs "\x5cSeen") = bs "\x5canswered" ∨
    lowerList (bs "\x5cSeen") = bs "\x5cflagged" ∨
    lowerList (bs "\x5cSeen") = bs "\x5cdeleted" ∨
    lowerList (bs "\x5cSeen") = bs "\x5cseen" ∨
    lowerList (bs "\x5cSeen") = bs "\x5cdraft" :=
  C6_flag_whitelist.1 (newParser (bs "\x5cSeen") conn0) (bs "\x5cSeen")
    { newParser (bs "\x5cSeen") conn0 with o := 5 } (by decide) (by decide)

lemma take_matches (p : parser) (s : List Nat) (h : hasPrefix p s = true) :
    take p s = (true, { p with o := p.o + s.length }) := by
  simp [take, h]

lemma takelist_first_match (p : parser) (w : List Nat) (pre post : List (List Nat))
    (hpre : ∀ v ∈ pre, hasPrefix p v = false) (hw : hasPrefix p w = true) :
    takelist p (pre ++ w :: post) = ((w, true), { p with o := p.o + w.length }) := by
  induction pre with
  | nil =>
    simp only [List.nil_append, takelist]
    rw [take_matches p w hw]
    simp
  | cons v vs ih =>
    have hv : take p v = (false, p) := by simp [take, hpre v (by simp)]
    simp only [List.cons_append, takelist, hv]
    exact ih (fun u hu => hpre u (by simp [hu]))

/-- C10: keyword matching is prefix-based with no word-boundary check — take
consumes exactly its argument whenever the upper view at the offset begins
with it, regardless of what follows; takelist consumes the first keyword of
the list that matches; and xstatusAtt on MESSAGESFOO succeeds, returns
MESSAGES, and leaves FOO unconsumed. -/
theorem C10_keyword_prefix_semantics :
    (∀ (p : parser) (s : List Nat), hasPrefix p s = true →
        take p s = (true, { p with o := p.o + s.length })) ∧
    (∀ (p : parser) (w : List Nat) (pre post : List (List Nat)),
        (∀ v ∈ pre, hasPrefix p v = false) → hasPrefix p w = true →
        takelist p (pre ++ w :: post) = ((w, true), { p with o := p.o + w.length })) ∧
    xstatusAtt (newParser (bs "MESSAGESFOO") conn0) =
      res.ok (bs "MESSAGES") { newParser (bs "MESSAGESFOO") conn0 with o := 8 } ∧
    remainder { newParser (bs "MESSAGESFOO") conn0 with o := 8 } = bs "FOO" := by
  exact ⟨take_matches, fun p w pre post h1 h2 => takelist_first_match p w pre post h1 h2,
    by decide, by decide⟩

theorem C10_keyword_prefix_semantics_witness :
    take (newParser (bs "MESSAGESFOO") conn0) (bs "MESSAGES") =
      (true, { newParser (bs "MESSAGESFOO") conn0 with
                 o := (newParser (bs "MESSAGESFOO") conn0).o + (bs "MESSAGES").length }) :=
  C10_keyword_prefix_semantics.1 (newParser (bs "MESSAGESFOO") conn0) (bs "MESSAGES") (by decide)

lemma nznumber_true_pos (p : parser) (v : Nat) (pz : parser)
    (h : nznumber p = ((v, true), pz)) : 1 ≤ v := by
  by_cases h0 : digitsCount (p.upper.drop p.o) = 0
  · simp [nznumber, h0] at h
  · rcases hp : parseUint32 ((p.upper.drop p.o).take (digitsCount (p.upper.drop p.o))) with _ | w
    · simp [nznumber, h0, hp] at h
    · by_cases hw : w = 0
      · simp [nznumber, h0, hp, hw] at h
      · simp [nznumber, h0, hp, hw] at h
        rcases h with ⟨⟨h1, h2⟩, h3⟩
        omega

lemma xnznumber_ok_pos (p : parser) (n : Nat) (p1 : parser)
    (h : xnznumber p = res.ok n p1) : 1 ≤ n := by
  unfold xnznumber at h
  rcases hz : nznumber p with ⟨⟨v, b⟩, pz⟩
  rw [hz] at h
  dsimp only at h
  cases b with
  | false => simp [xerrorf] at h
  | true =>
    rw [if_pos rfl] at h
    injection h with h1 h2
    subst h1
    exact nznumber_true_pos _ _ _ hz

lemma xstarOrNZ_ok_inv (p : parser) (sn : setNumber) (p1 : parser)
    (h : xstarOrNZ p = res.ok sn p1) : setNumberInv sn := by
  unfold xstarOrNZ at h
  rcases ht : take p (bs "*") with ⟨b, pb⟩
  rw [ht] at h
  dsimp only at h
  cases b with
  | true =>
    rw [if_pos rfl] at h
    injection h with h1 h2
    subst h1
    exact Or.inl ⟨rfl, rfl⟩
  | false =>
    rw [if_neg (by simp)] at h
    cases hz : xnznumber pb with
    | err e pe => rw [hz] at h; exact res.noConfusion h
    | ok n pn =>
      rw [hz] at h
      injection h with h1 h2
      subst h1
      exact Or.inr ⟨rfl, xnznumber_ok_pos _ _ _ hz⟩

lemma xnumRange_ok_inv (p : parser) (nr : numRange) (p1 : parser)
    (h : xnumRange p = res.ok nr p1) : numRangeInv nr := by
  unfold xnumRange at h
  cases h1 : xstarOrNZ p with
  | err e pe => rw [h1] at h; exact res.noConfusion h
  | ok first pf =>
    rw [h1] at h
    dsimp only at h
    rcases ht : take pf (bs ":") with ⟨bc, pc⟩
    rw [ht] at h
    dsimp only at h
    cases bc with
    | true =>
      rw [if_pos rfl] at h
      cases h2 : xstarOrNZ pc with
      | err e pe => rw [h2] at h; exact res.noConfusion h
      | ok lastv pl =>
        rw [h2] at h
        injection h with h3 h4
        subst h3
        refine ⟨xstarOrNZ_ok_inv _ _ _ h1, fun l hl => ?_⟩
        injection hl with hl'
        subst hl'
        exact xstarOrNZ_ok_inv _ _ _ h2
    | false =>
      rw [if_neg (by simp)] at h
      injection h with h3 h4
      subst h3
      exact ⟨xstarOrNZ_ok_inv _ _ _ h1, fun l hl => by cases hl⟩

lemma xnumSetLoop_inv (fuel : Nat) :
    ∀ (acc : List numRange) (p : parser) (rs : List numRange) (p1 : parser),
      xnumSetLoop fuel acc p = res.ok rs p1 →
      ∃ ext, rs = acc ++ ext ∧ ∀ nr ∈ ext, numRangeInv nr := by
  induction fuel with
  | zero =>
    intro acc p rs p1 h
    unfold xnumSetLoop at h
    exact res.noConfusion h
  | succ n ih =>
    intro acc p rs p1 h
    unfold xnumSetLoop at h
    rcases ht : take p (bs ",") with ⟨b, pb⟩
    rw [ht] at h
    dsimp only at h
    cases b with
    | true =>
      rw [if_pos rfl] at h
      cases hr : xnumRange pb with
      | err e pe => rw [hr] at h; exact res.noConfusion h
      | ok nr pn =>
        rw [hr] at h
        rcases ih (acc ++ [nr]) pn rs p1 h with ⟨ext, hext, hinv⟩
        refine ⟨nr :: ext, by simp [hext], ?_⟩
        intro x hx
        rcases List.mem_cons.mp hx with hx | hx
        · subst hx
          exact xnumRange_ok_inv _ _ _ hr
        · exact hinv x hx
    | false =>
      rw [if_neg (by simp)] at h
      injection h with h1 h2
      exact ⟨[], by simp [h1], by simp⟩

/-- C9: every numSet produced by xnumSet is exclusively either the
searchResult marker with an empty range list, or a non-empty range list
without the marker; and each side of each parsed range is either the star
marker (with the number at the Go zero value) or a non-zero u32, never
both. -/
theorem C9_numSet_exclusive (p : parser) (r : numSet) (p1 : parser)
    (h : xnumSet p = res.ok r p1) :
    (r.searchResult = true ∧ r.ranges = []) ∨
    (r.searchResult = false ∧ r.ranges ≠ [] ∧ ∀ nr ∈ r.ranges, numRangeInv nr) := by
  unfold xnumSet at h
  rcases ht : take p (bs "$") with ⟨b, pb⟩
  rw [ht] at h
  dsimp only at h
  cases b with
  | true =>
    rw [if_pos rfl] at h
    injection h with h1 h2
    subst h1
    exact Or.inl ⟨rfl, rfl⟩
  | false =>
    rw [if_neg (by simp)] at h
    cases hr : xnumRange pb with
    | err e pe => rw [hr] at h; exact res.noConfusion h
    | ok nr pn =>
      rw [hr] at h
      dsimp only at h
      cases hl : xnumSetLoop (pn.orig.length + 1) [nr] pn with
      | err e pe => rw [hl] at h; exact res.noConfusion h
      | ok rs pl =>
        rw [hl] at h
        injection h with h1 h2
        subst h1
        rcases xnumSetLoop_inv _ _ _ _ _ hl with ⟨ext, hext, hinv⟩
        refine Or.inr ⟨rfl, by simp [hext], ?_⟩
        intro x hx
        simp only [hext] at hx
        rcases List.mem_append.mp hx with hx | hx
        · rcases List.mem_singleton.mp hx with rfl
          exact xnumRange_ok_inv _ _ _ hr
        · exact hinv x hx

theorem C9_numSet_exclusive_witness :
    ((⟨false, [⟨⟨false, 1⟩, some ⟨false, 3⟩⟩, ⟨⟨false, 5⟩, none⟩]⟩ : numSet).searchResult = true ∧
      (⟨false, [⟨⟨false, 1⟩, some ⟨false, 3⟩⟩, ⟨⟨false, 5⟩, none⟩]⟩ : numSet).ranges = []) ∨
    ((⟨false, [⟨⟨false, 1⟩, some ⟨false, 3⟩⟩, ⟨⟨false, 5⟩, none⟩]⟩ : numSet).searchResult = false ∧
      (⟨false, [⟨⟨false, 1⟩, some ⟨false, 3⟩⟩, ⟨⟨false, 5⟩, none⟩]⟩ : numSet).ranges ≠ [] ∧
      ∀ nr ∈ (⟨false, [⟨⟨false, 1⟩, some ⟨false, 3⟩⟩, ⟨⟨false, 5⟩, none⟩]⟩ : numSet).ranges,
        numRangeInv nr) :=
  C9_numSet_exclusive (newParser (bs "1:3,5") conn0)
    ⟨false, [⟨⟨false, 1⟩, some ⟨false, 3⟩⟩, ⟨⟨false, 5⟩, none⟩]⟩
    { newParser (bs "1:3,5") conn0 with o := 5 } (by decide)

lemma isPrefixOf_append_false (s t u : List Nat)
    (h1 : List.isPrefixOf s t = false) (h2 : List.isPrefixOf t s = false) :
    List.isPrefixOf s (t ++ u) = false := by
  cases hb : List.isPrefixOf s (t ++ u) with
  | false => rfl
  | true =>
    exfalso
    have hsp : s <+: t ++ u := List.isPrefixOf_iff_prefix.mp hb
    by_cases hl : s.length ≤ t.length
    · have hst : s <+: t := List.prefix_of_prefix_length_le hsp (List.prefix_append t u) hl
      rw [List.isPrefixOf_iff_prefix.mpr hst] at h1
      exact Bool.noConfusion h1
    · have hts : t <+: s :=
        List.prefix_of_prefix_length_le (List.prefix_append t u) hsp (by omega)
      rw [List.isPrefixOf_iff_prefix.mpr hts] at h2
      exact Bool.noConfusion h2

lemma hasPrefix_word_false (p : parser) (w0 w : List Nat)
    (hw : hasPrefix p w0 = true)
    (h1 : List.isPrefixOf w w0 = false) (h2 : List.isPrefixOf w0 w = false) :
    hasPrefix p w = false := by
  unfold hasPrefix at hw ⊢
  rcases List.isPrefixOf_iff_prefix.mp hw with ⟨rest, hr⟩
  rw [← hr]
  exact isPrefixOf_append_false w w0 rest h1 h2

lemma hasPrefix_mono (p : parser) (s t : List Nat)
    (hst : List.isPrefixOf s t = true) (ht : hasPrefix p t = true) :
    hasPrefix p s = true := by
  unfold hasPrefix at ht ⊢
  exact List.isPrefixOf_iff_prefix.mpr
    ((List.isPrefixOf_iff_prefix.mp hst).trans (List.isPrefixOf_iff_prefix.mp ht))

lemma xtakelist_of_takelist (p : parser) (l : List (List Nat)) (w : List Nat) (q : parser)
    (h : takelist p l = ((w, true), q)) : xtakelist p l = res.ok w q := by
  unfold xtakelist
  rw [h]
  rfl

lemma xfetchAtt_fields (p : parser) (r : fetchAtt) (p1 : parser)
    (h : xfetchAtt p = res.ok r p1) :
    ∃ w q, takelist p fetchAttWords = ((w, true), q) ∧
      r.peek = List.isSuffixOf (bs ".PEEK") w ∧
      r.field = trimSuffix w (bs ".PEEK") := by
  unfold xfetchAtt at h
  rcases htl : takelist p fetchAttWords with ⟨⟨w, b⟩, q⟩
  cases b with
  | false =>
    have hx : xtakelist p fetchAttWords =
        res.err ⟨"", "", "expected one of " ++
          String.intercalate "," (fetchAttWords.map strOfBytes)⟩ q := by
      unfold xtakelist
      rw [htl]
      rfl
    rw [hx] at h
    exact res.noConfusion h
  | true =>
    have hx : xtakelist p fetchAttWords = res.ok w q := xtakelist_of_takelist p _ w q htl
    rw [hx] at h
    dsimp only at h
    refine ⟨w, q, rfl, ?_⟩
    split at h
    · split at h
      · split at h
        · exact res.noConfusion h
        · split at h
          · split at h
            · exact res.noConfusion h
            · injection h with h1 h2
              subst h1
              exact ⟨rfl, rfl⟩
          · injection h with h1 h2
            subst h1
            exact ⟨rfl, rfl⟩
      · injection h with h1 h2
        subst h1
        exact ⟨rfl, rfl⟩
    · split at h
      · split at h
        · exact res.noConfusion h
        · split at h
          · split at h
            · exact res.noConfusion h
            · injection h with h1 h2
              subst h1
              exact ⟨rfl, rfl⟩
          · injection h with h1 h2
            subst h1
            exact ⟨rfl, rfl⟩
      · split at h
        · split at h
          · exact res.noConfusion h
          · injection h with h1 h2
            subst h1
            exact ⟨rfl, rfl⟩
        · injection h with h1 h2
          subst h1
          exact ⟨rfl, rfl⟩

/-- C5: xfetchAtt resolves keyword prefix conflicts by its keyword ordering —
an input whose upper view starts with BODY.PEEK parses (when it parses at
all) as field BODY with peek true; one starting with BODY and an open
bracket parses as field BODY with peek false; one starting with
BODYSTRUCTURE always parses as field BODYSTRUCTURE, never BODY; and in every
parsed fetchAtt, peek is true exactly when the matched keyword carried the
.PEEK suffix (the field being that keyword with the suffix trimmed). -/
theorem C5_fetchAtt_longest_match :
    (∀ (p : parser) (r : fetchAtt) (p1 : parser),
        hasPrefix p (bs "BODY.PEEK") = true → xfetchAtt p = res.ok r p1 →
        r.field = bs "BODY" ∧ r.peek = true) ∧
    (∀ (p : parser) (r : fetchAtt) (p1 : parser),
        hasPrefix p (bs "BODY[") = true → xfetchAtt p = res.ok r p1 →
        r.field = bs "BODY" ∧ r.peek = false) ∧
    (∀ p : parser, hasPrefix p (bs "BODYSTRUCTURE") = true →
        xfetchAtt p = res.ok ⟨bs "BODYSTRUCTURE", false, none, [], none⟩
          { p with o := p.o + 13 }) ∧
    (∀ (p : parser) (r : fetchAtt) (p1 : parser), xfetchAtt p = res.ok r p1 →
        ∃ w q, takelist p fetchAttWords = ((w, true), q) ∧
          r.peek = List.isSuffixOf (bs ".PEEK") w ∧
          r.field = trimSuffix w (bs ".PEEK")) := by
  refine ⟨?_, ?_, ?_, fun p r p1 h => xfetchAtt_fields p r p1 h⟩
  · intro p r p1 hpre hok
    have ht : takelist p fetchAttWords =
        ((bs "BODY.PEEK", true), { p with o := p.o + (bs "BODY.PEEK").length }) := by
      refine takelist_first_match p (bs "BODY.PEEK")
        [bs "ENVELOPE", bs "FLAGS", bs "INTERNALDATE", bs "RFC822.SIZE",
         bs "BODYSTRUCTURE", bs "UID"]
        [bs "BODY", bs "BINARY.PEEK", bs "BINARY.SIZE", bs "BINARY",
         bs "RFC822.HEADER", bs "RFC822.TEXT", bs "RFC822"] ?_ hpre
      intro v hv
      fin_cases hv <;>
        exact hasPrefix_word_false p (bs "BODY.PEEK") _ hpre (by decide) (by decide)
    rcases xfetchAtt_fields p r p1 hok with ⟨w, q, htl, hpk, hfd⟩
    rw [ht] at htl
    injection htl with h1 h2
    injection h1 with h1a h1b
    subst h1a
    exact ⟨by rw [hfd]; decide, by rw [hpk]; decide⟩
  · intro p r p1 hpre hok
    have hb : hasPrefix p (bs "BODY") = true := hasPrefix_mono p _ (bs "BODY[") (by decide) hpre
    have ht : takelist p fetchAttWords =
        ((bs "BODY", true), { p with o := p.o + (bs "BODY").length }) := by
      refine takelist_first_match p (bs "BODY")
        [bs "ENVELOPE", bs "FLAGS", bs "INTERNALDATE", bs "RFC822.SIZE",
         bs "BODYSTRUCTURE", bs "UID", bs "BODY.PEEK"]
        [bs "BINARY.PEEK", bs "BINARY.SIZE", bs "BINARY",
         bs "RFC822.HEADER", bs "RFC822.TEXT", bs "RFC822"] ?_ hb
      intro v hv
      fin_cases hv <;>
        exact hasPrefix_word_false p (bs "BODY[") _ hpre (by decide) (by decide)
    rcases xfetchAtt_fields p r p1 hok with ⟨w, q, htl, hpk, hfd⟩
    rw [ht] at htl
    injection htl with h1 h2
    injection h1 with h1a h1b
    subst h1a
    exact ⟨by rw [hfd]; decide, by rw [hpk]; decide⟩
  · intro p hpre
    have ht : takelist p fetchAttWords =
        ((bs "BODYSTRUCTURE", true), { p with o := p.o + (bs "BODYSTRUCTURE").length }) := by
      refine takelist_first_match p (bs "BODYSTRUCTURE")
        [bs "ENVELOPE", bs "FLAGS", bs "INTERNALDATE", bs "RFC822.SIZE"]
        [bs "UID", bs "BODY.PEEK", bs "BODY", bs "BINARY.PEEK", bs "BINARY.SIZE",
         bs "BINARY", bs "RFC822.HEADER", bs "RFC822.TEXT", bs "RFC822"] ?_ hpre
      intro v hv
      fin_cases hv <;>
        exact hasPrefix_word_false p (bs "BODYSTRUCTURE") _ hpre (by decide) (by decide)
    have hx : xtakelist p fetchAttWords =
        res.ok (bs "BODYSTRUCTURE") { p with o := p.o + (bs "BODYSTRUCTURE").length } :=
      xtakelist_of_takelist p _ _ _ ht
    unfold xfetchAtt
    rw [hx]
    dsimp only
    rw [if_neg (by decide), if_neg (by decide), if_neg (by decide)]
    rfl

theorem C5_fetchAtt_longest_match_witness :
    (⟨bs "BODY", true, some ⟨none, none⟩, [], none⟩ : fetchAtt).field = bs "BODY" ∧
    (⟨bs "BODY", true, some ⟨none, none⟩, [], none⟩ : fetchAtt).peek = true :=
  C5_fetchAtt_longest_match.1 (newParser (bs "BODY.PEEK[]") conn0)
    ⟨bs "BODY", true, some ⟨none, none⟩, [], none⟩
    { newParser (bs "BODY.PEEK[]") conn0 with o := 11 } (by decide) (by decide)

lemma upper_len (p : parser) (h : p.upper = toUpper p.orig) :
    p.upper.length = p.orig.length := by
  rw [h]
  unfold toUpper
  exact List.length_map _ _

lemma extRel_upper (e : List Nat) (p q : parser) (h : extRel e p q) :
    q.upper.drop q.o = p.upper.drop p.o ++ toUpper e := by
  rcases h with ⟨⟨hpw, hpb⟩, ⟨hqw, hqb⟩, hrem⟩
  rw [hpw, hqw]
  unfold toUpper
  rw [← List.map_drop, ← List.map_drop, hrem, List.map_append]

lemma take_ext (e : List Nat) (p q p1 : parser) (s : List Nat)
    (hr : extRel e p q) (h : take p s = (true, p1)) :
    take q s = (true, { q with o := q.o + s.length }) ∧
    p1 = { p with o := p.o + s.length } ∧
    extRel e p1 { q with o := q.o + s.length } := by
  obtain ⟨⟨hpw, hpb⟩, ⟨hqw, hqb⟩, hrem⟩ := hr
  have hpre : hasPrefix p s = true := by
    by_cases hc : hasPrefix p s
    · exact hc
    · simp [take, hc] at h
  have hslen : s.length ≤ (p.orig.drop p.o).length := by
    have h1 : s.length ≤ (p.upper.drop p.o).length :=
      (List.isPrefixOf_iff_prefix.mp hpre).length_le
    rw [List.length_drop] at h1 ⊢
    rw [upper_len p hpw] at h1
    exact h1
  have hqpre : hasPrefix q s = true := by
    unfold hasPrefix at hpre ⊢
    rw [extRel_upper e p q ⟨⟨hpw, hpb⟩, ⟨hqw, hqb⟩, hrem⟩]
    exact List.isPrefixOf_iff_prefix.mpr
      ((List.isPrefixOf_iff_prefix.mp hpre).trans (List.prefix_append _ _))
  have hp1 : p1 = { p with o := p.o + s.length } := by
    rw [take_matches p s hpre] at h
    injection h with h1 h2
    exact h2.symm
  refine ⟨take_matches q s hqpre, hp1, ?_⟩
  subst hp1
  have hdp : (p.orig.drop p.o).length = p.orig.length - p.o := List.length_drop _ _
  have hdq : (q.orig.drop q.o).length = q.orig.length - q.o := List.length_drop _ _
  have hqslen : s.length ≤ (q.orig.drop q.o).length := by
    rw [hrem, List.length_append]
    exact le_trans hslen (Nat.le_add_right _ _)
  refine ⟨⟨hpw, by dsimp only; omega⟩, ⟨hqw, by dsimp only; omega⟩, ?_⟩
  dsimp only
  rw [← List.drop_drop, ← List.drop_drop, hrem, List.drop_append_of_le_length hslen]

lemma xtake_ext (e : List Nat) (p q p1 : parser) (s : List Nat)
    (hr : extRel e p q) (h : xtake p s = res.ok () p1) :
    xtake q s = res.ok () { q with o := q.o + s.length } ∧
    p1 = { p with o := p.o + s.length } ∧
    extRel e p1 { q with o := q.o + s.length } := by
  have ht : take p s = (true, p1) := by
    unfold xtake at h
    rcases htk : take p s with ⟨b, pb⟩
    rw [htk] at h
    dsimp only at h
    cases b with
    | false => simp [xerrorf] at h
    | true =>
      injection h with h1 h2
      rw [h2]
  rcases take_ext e p q p1 s hr ht with ⟨hq, hp1, hrel⟩
  refine ⟨?_, hp1, hrel⟩
  unfold xtake
  rw [hq]
  rfl

lemma xtaken_ext (e : List Nat) (p q p1 : parser) (n : Nat) (s : List Nat)
    (hr : extRel e p q) (h : xtaken p n = res.ok s p1) :
    xtaken q n = res.ok s { q with o := q.o + n } ∧
    p1 = { p with o := p.o + n } ∧
    extRel e p1 { q with o := q.o + n } := by
  obtain ⟨⟨hpw, hpb⟩, ⟨hqw, hqb⟩, hrem⟩ := hr
  unfold xtaken at h
  split at h
  · simp [xerrorf] at h
  · rename_i hle
    injection h with h1 h2
    have hn : n ≤ (p.orig.drop p.o).length := by
      rw [List.length_drop]
      omega
    have hdq : (q.orig.drop q.o).length = q.orig.length - q.o := List.length_drop _ _
    have hqn : n ≤ (q.orig.drop q.o).length := by
      rw [hrem, List.length_append]
      exact le_trans hn (Nat.le_add_right _ _)
    have hqle : ¬ (q.o + n > q.orig.length) := by omega
    refine ⟨?_, h2.symm, ?_⟩
    · unfold xtaken
      rw [if_neg hqle, hrem, List.take_append_of_le_length hn, h1]
    · rw [← h2]
      refine ⟨⟨hpw, by dsimp only; omega⟩, ⟨hqw, by dsimp only; omega⟩, ?_⟩
      dsimp only
      rw [← List.drop_drop, ← List.drop_drop, hrem, List.drop_append_of_le_length hn]

lemma digit_ext_true (e : List Nat) (p q p1 : parser) (s : List Nat)
    (hr : extRel e p q) (h : digit p = ((s, true), p1)) :
    digit q = ((s, true), { q with o := q.o + 1 }) ∧
    p1 = { p with o := p.o + 1 } ∧
    extRel e p1 { q with o := q.o + 1 } := by
  obtain ⟨⟨hpw, hpb⟩, ⟨hqw, hqb⟩, hrem⟩ := hr
  unfold digit at h
  split at h
  · exact absurd h (by simp)
  · split at h
    · exact absurd h (by simp)
    · rename_i hne hcond
      injection h with h1 h2
      injection h1 with h1a h1b
      simp only [empty] at hne
      have hplen : p.o < p.orig.length := by
        have hu := upper_len p hpw
        simp at hne
        omega
      have hdp : (p.orig.drop p.o).length = p.orig.length - p.o := List.length_drop _ _
      rcases hrm : p.orig.drop p.o with _ | ⟨c0, t0⟩
      · rw [hrm] at hdp
        simp at hdp
        omega
      · have hqrem : q.orig.drop q.o = c0 :: (t0 ++ e) := by
          rw [hrem, hrm]
          rfl
        have hdq : (q.orig.drop q.o).length = q.orig.length - q.o := List.length_drop _ _
        have hqlen : q.o < q.orig.length := by
          rw [hqrem] at hdq
          simp at hdq
          omega
        have hqne : ¬ empty q = true := by
          simp only [empty]
          have hu := upper_len q hqw
          simp
          omega
        rw [hrm] at hcond h1a
        simp only [List.headD] at hcond h1a
        refine ⟨?_, h2.symm, ?_⟩
        · unfold digit
          rw [if_neg hqne, hqrem]
          simp only [List.headD]
          rw [if_neg hcond, ← h1a]
        · rw [← h2]
          refine ⟨⟨hpw, by dsimp only; omega⟩, ⟨hqw, by dsimp only; omega⟩, ?_⟩
          dsimp only
          rw [← List.drop_drop, ← List.drop_drop, hrem, hrm]
          rfl

lemma digit_ext_false (e : List Nat) (p q p1 : parser) (s : List Nat)
    (hr : extRel e p q) (hnd : eNoDigit e) (h : digit p = ((s, false), p1)) :
    digit q = (([], false), q) := by
  obtain ⟨⟨hpw, hpb⟩, ⟨hqw, hqb⟩, hrem⟩ := hr
  have hdp : (p.orig.drop p.o).length = p.orig.length - p.o := List.length_drop _ _
  have hdq : (q.orig.drop q.o).length = q.orig.length - q.o := List.length_drop _ _
  unfold digit at h
  split at h
  · -- empty p: the p remainder is empty, so the q remainder is exactly e
    rename_i hem
    simp only [empty] at hem
    simp at hem
    have hu := upper_len p hpw
    have hprem : p.orig.drop p.o = [] := by
      have : (p.orig.drop p.o).length = 0 := by omega
      exact List.length_eq_zero.mp this
    have hqrem : q.orig.drop q.o = e := by
      rw [hrem, hprem]
      rfl
    cases he : e with
    | nil =>
      have hqem : empty q = true := by
        simp only [empty]
        have hu2 := upper_len q hqw
        rw [he] at hqrem
        rw [hqrem] at hdq
        simp at hdq
        simp
        omega
      unfold digit
      rw [if_pos hqem]
    | cons c0 t0 =>
      have hqlen : q.o < q.orig.length := by
        rw [he] at hqrem
        rw [hqrem] at hdq
        simp at hdq
        omega
      have hqne : ¬ empty q = true := by
        simp only [empty]
        have hu2 := upper_len q hqw
        simp
        omega
      have hc0 : ¬ (0x30 ≤ c0 ∧ c0 ≤ 0x39) := hnd c0 (by rw [he]; rfl)
      unfold digit
      rw [if_neg hqne, hqrem, he]
      simp only [List.headD]
      rw [if_pos (by omega)]
  · split at h
    · -- non-digit head: the q remainder has the same head
      rename_i hne hcond
      simp only [empty] at hne
      simp at hne
      have hu := upper_len p hpw
      have hplen : p.o < p.orig.length := by omega
      rcases hrm : p.orig.drop p.o with _ | ⟨c0, t0⟩
      · rw [hrm] at hdp
        simp at hdp
        omega
      · have hqrem : q.orig.drop q.o = c0 :: (t0 ++ e) := by
          rw [hrem, hrm]
          rfl
        have hqlen : q.o < q.orig.length := by
          rw [hqrem] at hdq
          simp at hdq
          omega
        have hqne : ¬ empty q = true := by
          simp only [empty]
          have hu2 := upper_len q hqw
          simp
          omega
        rw [hrm] at hcond
        simp only [List.headD] at hcond
        unfold digit
        rw [if_neg hqne, hqrem]
        simp only [List.headD]
        rw [if_pos hcond]
    · exact absurd h (by simp)

lemma xdigit_ext (e : List Nat) (p q p1 : parser) (s : List Nat)
    (hr : extRel e p q) (h : xdigit p = res.ok s p1) :
    xdigit q = res.ok s { q with o := q.o + 1 } ∧
    p1 = { p with o := p.o + 1 } ∧
    extRel e p1 { q with o := q.o + 1 } := by
  unfold xdigit at h
  rcases hd : digit p with ⟨⟨sv, b⟩, pd⟩
  rw [hd] at h
  dsimp only at h
  cases b with
  | false => simp [xerrorf] at h
  | true =>
    rw [if_pos rfl] at h
    injection h with h1 h2
    obtain ⟨hq, hpd, hrel⟩ := digit_ext_true e p q pd sv ⟨⟨(by exact hr.1.1), hr.1.2⟩, hr.2.1, hr.2.2⟩ hd
    subst h1
    subst h2
    refine ⟨?_, hpd, hrel⟩
    unfold xdigit
    rw [hq]
    rfl

lemma xint_ok_state (p : parser) (s : List Nat) (v : Int) (p1 : parser)
    (h : xint p s = res.ok v p1) : p1 = p ∧ parseIntW 32 s = some v := by
  unfold xint at h
  rcases hp : parseIntW 32 s with _ | w
  · rw [hp] at h
    simp [xerrorf] at h
  · rw [hp] at h
    injection h with h1 h2
    exact ⟨h2.symm, by rw [h1]⟩

lemma xdateDay_ext (e : List Nat) (p q p1 : parser) (d : Int)
    (hr : extRel e p q) (hnd : eNoDigit e) (h : xdateDay p = res.ok d p1) :
    ∃ q1, xdateDay q = res.ok d q1 ∧ extRel e p1 q1 := by
  unfold xdateDay at h
  cases hx : xdigit p with
  | err e1 pe =>
    rw [hx] at h
    exact res.noConfusion h
  | ok d1 pd =>
    rw [hx] at h
    dsimp only at h
    obtain ⟨hqx, hpd, hrel⟩ := xdigit_ext e p q pd d1 hr hx
    rcases hdg : digit pd with ⟨⟨s2, b2⟩, pd2⟩
    rw [hdg] at h
    dsimp only at h
    cases b2 with
    | true =>
      rw [if_pos rfl] at h
      obtain ⟨hqd, hpd2, hrel2⟩ := digit_ext_true e pd _ pd2 s2 hrel hdg
      obtain ⟨hst, hpi⟩ := xint_ok_state pd2 (d1 ++ s2) d p1 h
      refine ⟨{ orig := q.orig, upper := q.upper, o := q.o + 1 + 1, conn := q.conn }, ?_, ?_⟩
      · unfold xdateDay
        rw [hqx]
        dsimp only
        rw [hqd]
        dsimp only
        rw [if_pos rfl]
        unfold xint
        rw [hpi]
      · rw [hst]
        exact hrel2
    | false =>
      rw [if_neg (by simp)] at h
      have hdf : digit pd = (([], false), pd) := digit_false_eq pd (by rw [hdg])
      have hpd2 : pd2 = pd := by
        rw [hdg] at hdf
        injection hdf with hdf1 hdf2
      have hqd : digit { q with o := q.o + 1 } = (([], false), { q with o := q.o + 1 }) :=
        digit_ext_false e pd _ pd [] hrel hnd hdf
      obtain ⟨hst, hpi⟩ := xint_ok_state pd2 d1 d p1 h
      refine ⟨{ q with o := q.o + 1 }, ?_, ?_⟩
      · unfold xdateDay
        rw [hqx]
        dsimp only
        rw [hqd]
        dsimp only
        rw [if_neg (by simp)]
        unfold xint
        rw [hpi]
      · rw [hst, hpd2]
        exact hrel

lemma xdateMonth_ext (e : List Nat) (p q p1 : parser) (m : Nat)
    (hr : extRel e p q) (h : xdateMonth p = res.ok m p1) :
    xdateMonth q = res.ok m { q with o := q.o + 3 } ∧
    p1 = { p with o := p.o + 3 } ∧
    extRel e p1 { q with o := q.o + 3 } := by
  unfold xdateMonth at h
  cases ht : xtaken p 3 with
  | err e1 pe =>
    rw [ht] at h
    exact res.noConfusion h
  | ok s3 pt =>
    rw [ht] at h
    dsimp only at h
    obtain ⟨hqt, hpt, hrel⟩ := xtaken_ext e p q pt 3 s3 hr ht
    rcases hf : List.findIdx? (fun x => x == lowerList s3) months with _ | i
    · rw [hf] at h
      simp [xerrorf] at h
    · rw [hf] at h
      injection h with h1 h2
      subst h1
      refine ⟨?_, by rw [← h2]; exact hpt, ?_⟩
      · unfold xdateMonth
        rw [hqt]
        dsimp only
        rw [hf]
      · rw [← h2]
        exact hrel

lemma take_quote_false (l : List Nat) (c : conn) (hnq : l.head? ≠ some 0x22) :
    take (newParser l c) (bs "\x22") = (false, newParser l c) := by
  have hf : hasPrefix (newParser l c) (bs "\x22") = false := by
    have hb : bs "\x22" = [34] := by decide
    unfold hasPrefix newParser
    dsimp only
    rw [hb, List.drop_zero]
    cases l with
    | nil => rfl
    | cons c0 t0 =>
      have h0 : c0 ≠ 34 := fun hc => hnq (by rw [List.head?_cons, hc])
      by_cases hcc : 0x61 ≤ c0 ∧ c0 ≤ 0x7a
      · simp [toUpper, List.isPrefixOf, hcc]
        omega
      · simp [toUpper, List.isPrefixOf, hcc]
        omega
  simp [take, hf]

lemma take_quote_cons (m : List Nat) (c : conn) :
    take (newParser (0x22 :: m) c) (bs "\x22") =
      (true, { newParser (0x22 :: m) c with o := 1 }) := by
  have hp : hasPrefix (newParser (0x22 :: m) c) (bs "\x22") = true := by
    have hb : bs "\x22" = [34] := by decide
    unfold hasPrefix newParser
    dsimp only
    rw [hb, List.drop_zero]
    simp [toUpper, List.isPrefixOf]
  exact take_matches _ _ hp

lemma xdate_steps_ext (e : List Nat) (p q pA pB pC pD pE pF : parser)
    (day : Int) (mon : Nat) (ys : List Nat) (year : Int)
    (hr : extRel e p q) (hnd : eNoDigit e)
    (h1 : xdateDay p = res.ok day pA)
    (h2 : xtake pA (bs "-") = res.ok () pB)
    (h3 : xdateMonth pB = res.ok mon pC)
    (h4 : xtake pC (bs "-") = res.ok () pD)
    (h5 : xtaken pD 4 = res.ok ys pE)
    (h6 : xint pE ys = res.ok year pF) :
    ∃ qA qB qC qD qE : parser,
      xdateDay q = res.ok day qA ∧
      xtake qA (bs "-") = res.ok () qB ∧
      xdateMonth qB = res.ok mon qC ∧
      xtake qC (bs "-") = res.ok () qD ∧
      xtaken qD 4 = res.ok ys qE ∧
      xint qE ys = res.ok year qE := by
  obtain ⟨qA, g1, r1⟩ := xdateDay_ext e p q pA day hr hnd h1
  obtain ⟨g2, hB, r2⟩ := xtake_ext e pA qA pB (bs "-") r1 h2
  obtain ⟨g3, hC, r3⟩ := xdateMonth_ext e pB _ pC mon r2 h3
  obtain ⟨g4, hD, r4⟩ := xtake_ext e pC _ pD (bs "-") r3 h4
  obtain ⟨g5, hE, r5⟩ := xtaken_ext e pD _ pE 4 ys r4 h5
  obtain ⟨hFE, hpi⟩ := xint_ok_state pE ys year pF h6
  refine ⟨qA, _, _, _, _, g1, g2, g3, g4, g5, ?_⟩
  unfold xint
  rw [hpi]

/-- C8: whenever xdate succeeds on an unquoted input line, the returned value
is midnight UTC of the parsed day-month-year (all time fields zero, zone
UTC), and the same input preceded by an opening double quote also succeeds
with the identical value whether or not a closing double quote is appended —
the closing quote is consumed silently when present and its absence is not
an error. -/
theorem C8_date_quotes (l : List Nat) (c : conn) (t : goTime) (p1 : parser)
    (hnq : l.head? ≠ some 0x22)
    (h : xdate (newParser l c) = res.ok t p1) :
    (t.hour = 0 ∧ t.minute = 0 ∧ t.sec = 0 ∧ t.nsec = 0 ∧
      t.zoneName = "UTC" ∧ t.zoneOffset = 0) ∧
    (∃ q1, xdate (newParser (0x22 :: l) c) = res.ok t q1) ∧
    (∃ q2, xdate (newParser (0x22 :: (l ++ [0x22])) c) = res.ok t q2) := by
  unfold xdate at h
  rw [take_quote_false l c hnq] at h
  dsimp only at h
  cases h1 : xdateDay (newParser l c) with
  | err e1 pe => rw [h1] at h; exact res.noConfusion h
  | ok day pA =>
  rw [h1] at h
  dsimp only at h
  cases h2 : xtake pA (bs "-") with
  | err e2 pe => rw [h2] at h; exact res.noConfusion h
  | ok u2 pB =>
  cases u2
  rw [h2] at h
  dsimp only at h
  cases h3 : xdateMonth pB with
  | err e3 pe => rw [h3] at h; exact res.noConfusion h
  | ok mon pC =>
  rw [h3] at h
  dsimp only at h
  cases h4 : xtake pC (bs "-") with
  | err e4 pe => rw [h4] at h; exact res.noConfusion h
  | ok u4 pD =>
  cases u4
  rw [h4] at h
  dsimp only at h
  cases h5 : xtaken pD 4 with
  | err e5 pe => rw [h5] at h; exact res.noConfusion h
  | ok ys pE =>
  rw [h5] at h
  dsimp only at h
  cases h6 : xint pE ys with
  | err e6 pe => rw [h6] at h; exact res.noConfusion h
  | ok year pF =>
  rw [h6] at h
  dsimp only at h
  injection h with ht hp1
  refine ⟨?_, ?_, ?_⟩
  · rw [← ht]
    exact ⟨rfl, rfl, rfl, rfl, rfl, rfl⟩
  · have hrel : extRel [] (newParser l c) { newParser (0x22 :: l) c with o := 1 } := by
      refine ⟨⟨rfl, Nat.zero_le _⟩, ⟨rfl, ?_⟩, ?_⟩
      · simp [newParser]
      · simp [newParser]
    obtain ⟨qA, qB, qC, qD, qE, g1, g2, g3, g4, g5, g6⟩ :=
      xdate_steps_ext [] _ _ pA pB pC pD pE pF day mon ys year hrel
        (by intro c0 hc0; simp at hc0) h1 h2 h3 h4 h5 h6
    refine ⟨(take qE (bs "\x22")).2, ?_⟩
    unfold xdate
    rw [take_quote_cons l c]
    dsimp only
    rw [g1]
    dsimp only
    rw [g2]
    dsimp only
    rw [g3]
    dsimp only
    rw [g4]
    dsimp only
    rw [g5]
    dsimp only
    rw [g6]
    dsimp only
    rw [← ht]
    rfl
  · have hrel : extRel [0x22] (newParser l c)
        { newParser (0x22 :: (l ++ [0x22])) c with o := 1 } := by
      refine ⟨⟨rfl, Nat.zero_le _⟩, ⟨rfl, ?_⟩, ?_⟩
      · simp [newParser]
      · simp [newParser]
    obtain ⟨qA, qB, qC, qD, qE, g1, g2, g3, g4, g5, g6⟩ :=
      xdate_steps_ext [0x22] _ _ pA pB pC pD pE pF day mon ys year hrel
        (by intro c0 hc0; simp at hc0; omega) h1 h2 h3 h4 h5 h6
    refine ⟨(take qE (bs "\x22")).2, ?_⟩
    unfold xdate
    rw [take_quote_cons (l ++ [0x22]) c]
    dsimp only
    rw [g1]
    dsimp only
    rw [g2]
    dsimp only
    rw [g3]
    dsimp only
    rw [g4]
    dsimp only
    rw [g5]
    dsimp only
    rw [g6]
    dsimp only
    rw [← ht]
    rfl

theorem C8_date_quotes_witness :
    ((⟨2024, 1, 1, 0, 0, 0, 0, "UTC", 0⟩ : goTime).hour = 0 ∧
      (⟨2024, 1, 1, 0, 0, 0, 0, "UTC", 0⟩ : goTime).minute = 0 ∧
      (⟨2024, 1, 1, 0, 0, 0, 0, "UTC", 0⟩ : goTime).sec = 0 ∧
      (⟨2024, 1, 1, 0, 0, 0, 0, "UTC", 0⟩ : goTime).nsec = 0 ∧
      (⟨2024, 1, 1, 0, 0, 0, 0, "UTC", 0⟩ : goTime).zoneName = "UTC" ∧
      (⟨2024, 1, 1, 0, 0, 0, 0, "UTC", 0⟩ : goTime).zoneOffset = 0) ∧
    (∃ q1, xdate (newParser (0x22 :: bs "1-Jan-2024") conn0) =
      res.ok ⟨2024, 1, 1, 0, 0, 0, 0, "UTC", 0⟩ q1) ∧
    (∃ q2, xdate (newParser (0x22 :: (bs "1-Jan-2024" ++ [0x22])) conn0) =
      res.ok ⟨2024, 1, 1, 0, 0, 0, 0, "UTC", 0⟩ q2) :=
  C8_date_quotes (bs "1-Jan-2024") conn0 ⟨2024, 1, 1, 0, 0, 0, 0, "UTC", 0⟩
    { newParser (bs "1-Jan-2024") conn0 with o := 10 } (by decide) (by decide)

end Imap
